import Mathlib

/-!
Shallow embedding of `src/lakehouse_engine/algorithms/data_loader.py`: the
DataLoader algorithm that turns a configuration document (ACON) into spec
lists, reads each input spec into an ordered registry of dataset handles via
Reader Dispatch, and writes each output spec from that registry via Writer
Dispatch.

Dataset handles are opaque values of a type parameter `Df`; backend dispatch
errors are opaque values of a type parameter `ε`.  Python's ordered `dict`
is modelled as an association list with unique keys, insertion order being
the list order.
-/

namespace LakehouseEngine

/-- Errors surfacing from the DataLoader: a Python `KeyError` on a string key
(a missing mandatory configuration collection, or an `input_id` absent from
the registry at write time), or an opaque backend error from a dispatch call. -/
inductive PyErr (ε : Type) : Type where
  | keyError (key : String)
  | backend (e : ε)
deriving DecidableEq, Repr

/-- Python `OrderedDict` with string keys: an association list with unique
keys; insertion order is the list order. -/
abbrev ODict (Df : Type) : Type := List (String × Df)

/-- Dict assignment `d[k] = v`: when the key exists, its value is replaced in
place (keeping its insertion position); otherwise the pair is appended. -/
def odSet {Df : Type} (d : ODict Df) (k : String) (v : Df) : ODict Df :=
  match d with
  | [] => [(k, v)]
  | p :: rest => if p.1 = k then (k, v) :: rest else p :: odSet rest k v

/-- Dict lookup `d[k]`; `none` models a Python `KeyError`. -/
def odGet? {Df : Type} (d : ODict Df) (k : String) : Option Df :=
  match d with
  | [] => none
  | p :: rest => if p.1 = k then some p.2 else odGet? rest k

/-- Dict merge `d.update(m)`: assign every pair of `m` into `d`, in order. -/
def odUpdate {Df : Type} (d : ODict Df) (m : List (String × Df)) : ODict Df :=
  m.foldl (fun acc p => odSet acc p.1 p.2) d

/-- The keys of a dict, in insertion order. -/
def odKeys {Df : Type} (d : ODict Df) : List String :=
  d.map Prod.fst

/-- Modelled from the spec: the `InputSpec` value object of
`lakehouse_engine.core.definitions` (that module is not among the sources):
an identifier `spec_id` plus opaque backend-specific fields (a read-mode tag
and pass-through options). -/
structure InputSpec : Type where
  spec_id : String
  read_type : Option String
  options : List (String × String)
deriving DecidableEq, Repr

/-- Modelled from the spec: the `OutputSpec` value object of
`lakehouse_engine.core.definitions` (not among the sources); its fields are
exactly those passed at the construction site in
`DataLoader._get_output_specs`. -/
structure OutputSpec : Type where
  spec_id : String
  input_id : String
  write_type : Option String
  data_format : String
  db_table : Option String
  location : Option String
  partitions : List String
deriving DecidableEq, Repr

/-- Modelled from the spec: `OutputFormat.DELTAFILES.value` of
`lakehouse_engine.core.definitions` (not among the sources), the canonical
columnar table format string used as the `data_format` default. -/
def deltaFilesValue : String := "delta"

/-- A raw entry of the `output_specs` collection of the configuration
document; `none` in an optional field models the key being absent from the
raw dict, so that `spec.get(key, default)` takes its default. -/
structure RawOutputEntry : Type where
  spec_id : String
  input_id : String
  write_type : Option String
  data_format : Option String
  db_table : Option String
  location : Option String
  partitions : Option (List String)
deriving DecidableEq, Repr

/-- The ACON configuration document restricted to the two collections the
DataLoader reads; a `none` collection models the key being absent from the
document dict.  An entry of `input_specs` carries exactly the fields of
`InputSpec`, matching the `InputSpec(**spec)` expansion. -/
structure Acon : Type where
  input_specs : Option (List InputSpec)
  output_specs : Option (List RawOutputEntry)
deriving DecidableEq, Repr

/-- Build one `OutputSpec` from a raw entry, applying the defaults of
`DataLoader._get_output_specs`: `write_type`, `db_table`, `location` default
to `None`, `data_format` to `OutputFormat.DELTAFILES.value`, `partitions` to
the empty list. -/
def mkOutputSpec (e : RawOutputEntry) : OutputSpec :=
  { spec_id := e.spec_id
    input_id := e.input_id
    write_type := e.write_type
    data_format := e.data_format.getD deltaFilesValue
    db_table := e.db_table
    location := e.location
    partitions := e.partitions.getD [] }

/-- `DataLoader._get_input_specs`: `self.acon["input_specs"]` raises a
`KeyError` when the collection is absent, else yields one `InputSpec` per
entry. -/
def getInputSpecs (ε : Type) (acon : Acon) : Except (PyErr ε) (List InputSpec) :=
  match acon.input_specs with
  | none => .error (.keyError "input_specs")
  | some l => .ok l

/-- `DataLoader._get_output_specs`: `self.acon["output_specs"]` raises a
`KeyError` when the collection is absent, else yields one defaulted
`OutputSpec` per entry. -/
def getOutputSpecs (ε : Type) (acon : Acon) : Except (PyErr ε) (List OutputSpec) :=
  match acon.output_specs with
  | none => .error (.keyError "output_specs")
  | some l => .ok (l.map mkOutputSpec)

/-- The DataLoader after construction: the two spec lists captured from the
ACON. -/
structure DataLoader : Type where
  input_specs : List InputSpec
  output_specs : List OutputSpec
deriving DecidableEq, Repr

/-- `DataLoader.__init__`: capture the input spec list, then the output spec
list; either missing collection aborts construction with its `KeyError`. -/
def mkDataLoader (ε : Type) (acon : Acon) : Except (PyErr ε) DataLoader :=
  match getInputSpecs ε acon with
  | .error e => .error e
  | .ok ins =>
    match getOutputSpecs ε acon with
    | .error e => .error e
    | .ok outs => .ok ⟨ins, outs⟩

/-- Reader Dispatch (`ReaderFactory.get_data`): an input spec yields a
dataset handle or an opaque backend error. -/
abbrev Reader (ε Df : Type) : Type := InputSpec → Except ε Df

/-- Writer Dispatch (`WriterFactory.get_writer(spec, df, data).write()`): an
output spec, the resolved handle and the full registry yield an optional
mapping of named handles, or an opaque backend error. -/
abbrev Writer (ε Df : Type) : Type :=
  OutputSpec → Df → ODict Df → Except ε (Option (List (String × Df)))

/-- The loop body of `DataLoader.read`: for each input spec in order, invoke
Reader Dispatch and assign the returned handle under `spec_id`; a dispatch
failure aborts the loop and propagates. -/
def readLoop {ε Df : Type} (reader : Reader ε Df) :
    List InputSpec → ODict Df → Except (PyErr ε) (ODict Df)
  | [], read_dfs => .ok read_dfs
  | spec :: rest, read_dfs =>
    match reader spec with
    | .error e => .error (.backend e)
    | .ok df => readLoop reader rest (odSet read_dfs spec.spec_id df)

/-- `DataLoader.read`: run the read loop over the input specs starting from
an empty registry. -/
def read {ε Df : Type} (reader : Reader ε Df) (specs : List InputSpec) :
    Except (PyErr ε) (ODict Df) :=
  readLoop reader specs []

/-- The loop body of `DataLoader.write`: for each output spec in order,
resolve `data[spec.input_id]` (a missing key raises `KeyError`), invoke
Writer Dispatch with (spec, resolved handle, full registry); a truthy result
mapping (non-`None` and non-empty) is merged with `update`, otherwise the
registry gets the identity pass-through entry `spec_id ↦ resolved handle`. -/
def writeLoop {ε Df : Type} (writer : Writer ε Df) (data : ODict Df) :
    List OutputSpec → ODict Df → Except (PyErr ε) (ODict Df)
  | [], written_dfs => .ok written_dfs
  | spec :: rest, written_dfs =>
    match odGet? data spec.input_id with
    | none => .error (.keyError spec.input_id)
    | some df =>
      match writer spec df data with
      | .error e => .error (.backend e)
      | .ok (some m) =>
        if m.isEmpty then
          writeLoop writer data rest (odSet written_dfs spec.spec_id df)
        else
          writeLoop writer data rest (odUpdate written_dfs m)
      | .ok none => writeLoop writer data rest (odSet written_dfs spec.spec_id df)

/-- `DataLoader.write`: run the write loop over the output specs starting
from an empty written-output registry. -/
def write {ε Df : Type} (writer : Writer ε Df) (specs : List OutputSpec)
    (data : ODict Df) : Except (PyErr ε) (ODict Df) :=
  writeLoop writer data specs []

/-- `DataLoader.execute`: read stage, then write stage on the read result;
the `except` clause re-raises the caught error unchanged. -/
def execute {ε Df : Type} (reader : Reader ε Df) (writer : Writer ε Df)
    (dl : DataLoader) : Except (PyErr ε) (ODict Df) :=
  match read reader dl.input_specs with
  | .error e => .error e
  | .ok read_dfs =>
    match write writer dl.output_specs read_dfs with
    | .error e => .error e
    | .ok written_dfs => .ok written_dfs

/-- Construct the DataLoader from an ACON and execute it: the full pipeline
from configuration document to written-output registry. -/
def runAcon {ε Df : Type} (reader : Reader ε Df) (writer : Writer ε Df)
    (acon : Acon) : Except (PyErr ε) (ODict Df) :=
  match mkDataLoader ε acon with
  | .error e => .error e
  | .ok dl => execute reader writer dl

/-- The input specs for which `DataLoader.read` invokes Reader Dispatch: each
spec in order up to and including the first one whose dispatch fails. -/
def readDispatched {ε Df : Type} (reader : Reader ε Df) :
    List InputSpec → List InputSpec
  | [] => []
  | spec :: rest =>
    match reader spec with
    | .error _ => [spec]
    | .ok _ => spec :: readDispatched reader rest

/-- The output specs for which `DataLoader.write` invokes Writer Dispatch:
each spec in order while `input_id` resolves, up to and including the first
one whose dispatch fails; a spec whose `input_id` is absent is not dispatched
and ends the run. -/
def writeDispatched {ε Df : Type} (writer : Writer ε Df) (data : ODict Df) :
    List OutputSpec → List OutputSpec
  | [] => []
  | spec :: rest =>
    match odGet? data spec.input_id with
    | none => []
    | some df =>
      match writer spec df data with
      | .error _ => [spec]
      | .ok _ => spec :: writeDispatched writer data rest

/-! Basic lemmas about the ordered-dict model. -/

/-- Left-biased choice on options: the combinator underlying last-write-wins
lookups. -/
def orO {Df : Type} : Option Df → Option Df → Option Df
  | some v, _ => some v
  | none, b => b

@[simp]
lemma orO_some {Df : Type} (v : Df) (b : Option Df) : orO (some v) b = some v := rfl

@[simp]
lemma orO_none {Df : Type} (b : Option Df) : orO none b = b := rfl

lemma odGet?_set {Df : Type} (d : ODict Df) (k k' : String) (v : Df) :
    odGet? (odSet d k v) k' = if k = k' then some v else odGet? d k' := by
  induction d with
  | nil => simp [odSet, odGet?]
  | cons p rest ih =>
    by_cases hp : p.1 = k
    · subst hp
      by_cases hk : p.1 = k' <;> simp [odSet, odGet?, hk]
    · by_cases hk : k = k'
      · subst hk
        simp [odSet, odGet?, hp, ih]
      · simp [odSet, odGet?, hp, hk, ih]

lemma odKeys_nil {Df : Type} : odKeys ([] : ODict Df) = [] := rfl

lemma odKeys_cons {Df : Type} (p : String × Df) (d : ODict Df) :
    odKeys (p :: d) = p.1 :: odKeys d := rfl

lemma odKeys_append {Df : Type} (d e : ODict Df) :
    odKeys (d ++ e) = odKeys d ++ odKeys e := List.map_append _ _ _

lemma odSet_of_not_mem {Df : Type} (d : ODict Df) (k : String) (v : Df)
    (h : k ∉ odKeys d) : odSet d k v = d ++ [(k, v)] := by
  induction d with
  | nil => rfl
  | cons p rest ih =>
    have hp : p.1 ≠ k := fun he => h (by simp [odKeys, he])
    have hr : k ∉ odKeys rest := fun hm => h (by simp [odKeys_cons, hm])
    simp [odSet, hp, ih hr]

lemma mem_odKeys_set_self {Df : Type} (d : ODict Df) (k : String) (v : Df) :
    k ∈ odKeys (odSet d k v) := by
  induction d with
  | nil => simp [odSet, odKeys]
  | cons p rest ih =>
    by_cases hp : p.1 = k <;> simp [odSet, hp, odKeys_cons, ih]

lemma mem_odKeys_set_of_mem {Df : Type} (d : ODict Df) (k k' : String) (v : Df)
    (h : k' ∈ odKeys d) : k' ∈ odKeys (odSet d k v) := by
  induction d with
  | nil => simp [odKeys] at h
  | cons p rest ih =>
    by_cases hp : p.1 = k
    · subst hp
      rcases (by simpa [odKeys_cons] using h : k' = p.1 ∨ k' ∈ odKeys rest) with h1 | h1
      · simp [odSet, odKeys_cons, h1]
      · simp [odSet, odKeys_cons, h1]
    · rcases (by simpa [odKeys_cons] using h : k' = p.1 ∨ k' ∈ odKeys rest) with h1 | h1
      · simp [odSet, hp, odKeys_cons, h1]
      · simp [odSet, hp, odKeys_cons, ih h1]

lemma length_odSet_le {Df : Type} (d : ODict Df) (k : String) (v : Df) :
    (odSet d k v).length ≤ d.length + 1 := by
  induction d with
  | nil => simp [odSet]
  | cons p rest ih =>
    by_cases hp : p.1 = k
    · simp [odSet, hp]
    · simp [odSet, hp]
      omega

lemma length_odSet_of_mem {Df : Type} (d : ODict Df) (k : String) (v : Df)
    (h : k ∈ odKeys d) : (odSet d k v).length = d.length := by
  induction d with
  | nil => simp [odKeys] at h
  | cons p rest ih =>
    by_cases hp : p.1 = k
    · simp [odSet, hp]
    · have h1 : k ∈ odKeys rest := by
        rcases (by simpa [odKeys_cons] using h : k = p.1 ∨ k ∈ odKeys rest) with h1 | h1
        · exact absurd h1.symm hp
        · exact h1
      simp [odSet, hp, ih h1]

lemma mem_odKeys_of_odGet? {Df : Type} (d : ODict Df) (k : String) (v : Df)
    (h : odGet? d k = some v) : k ∈ odKeys d := by
  induction d with
  | nil => simp [odGet?] at h
  | cons p rest ih =>
    by_cases hp : p.1 = k
    · simp [odKeys_cons, hp.symm]
    · simp [odGet?, hp] at h
      simp [odKeys_cons, ih h]

/-- The value the assignments of `m` leave at key `k` when assigned in order:
the last pair of `m` whose key is `k`, if any. -/
def lastVal? {Df : Type} : List (String × Df) → String → Option Df
  | [], _ => none
  | p :: rest, k => orO (lastVal? rest k) (if p.1 = k then some p.2 else none)

lemma odUpdate_nil {Df : Type} (d : ODict Df) : odUpdate d [] = d := rfl

lemma odUpdate_cons {Df : Type} (d : ODict Df) (p : String × Df)
    (rest : List (String × Df)) :
    odUpdate d (p :: rest) = odUpdate (odSet d p.1 p.2) rest := rfl

lemma odGet?_update {Df : Type} (d : ODict Df) (m : List (String × Df))
    (k : String) : odGet? (odUpdate d m) k = orO (lastVal? m k) (odGet? d k) := by
  induction m generalizing d with
  | nil => simp [odUpdate_nil, lastVal?]
  | cons p rest ih =>
    rw [odUpdate_cons, ih, odGet?_set]
    cases h : lastVal? rest k with
    | some v => simp [lastVal?, h]
    | none =>
      by_cases hp : p.1 = k <;> simp [lastVal?, h, hp]

lemma mem_odKeys_update_of_mem {Df : Type} (d : ODict Df)
    (m : List (String × Df)) (k : String) (h : k ∈ odKeys d) :
    k ∈ odKeys (odUpdate d m) := by
  induction m generalizing d with
  | nil => simpa [odUpdate_nil] using h
  | cons p rest ih =>
    rw [odUpdate_cons]
    exact ih _ (mem_odKeys_set_of_mem _ _ _ _ h)

/-! Characterisation of the read stage when every dispatch succeeds. -/

/-- The registry assignment performed for one input spec whose dispatch
returned the handle `f spec`. -/
def readStep {Df : Type} (f : InputSpec → Df) (acc : ODict Df)
    (spec : InputSpec) : ODict Df :=
  odSet acc spec.spec_id (f spec)

lemma readLoop_ok {ε Df : Type} (reader : Reader ε Df) (f : InputSpec → Df)
    (specs : List InputSpec) (acc : ODict Df)
    (h : ∀ s ∈ specs, reader s = .ok (f s)) :
    readLoop reader specs acc = .ok (specs.foldl (readStep f) acc) := by
  induction specs generalizing acc with
  | nil => rfl
  | cons spec rest ih =>
    have h1 : reader spec = .ok (f spec) := h spec (by simp)
    have hrest : ∀ s ∈ rest, reader s = .ok (f s) := fun s hs => h s (by simp [hs])
    simp [readLoop, h1, List.foldl_cons, readStep, ih _ hrest]

/-- The handle the read stage leaves under key `k`: the one of the last input
spec (in declaration order) whose `spec_id` equals `k`. -/
def lastRead? {Df : Type} (f : InputSpec → Df) : List InputSpec → String → Option Df
  | [], _ => none
  | s :: rest, k => orO (lastRead? f rest k) (if s.spec_id = k then some (f s) else none)

lemma odGet?_readFold {Df : Type} (f : InputSpec → Df) (specs : List InputSpec)
    (acc : ODict Df) (k : String) :
    odGet? (specs.foldl (readStep f) acc) k = orO (lastRead? f specs k) (odGet? acc k) := by
  induction specs generalizing acc with
  | nil => simp [lastRead?]
  | cons s rest ih =>
    rw [List.foldl_cons, ih]
    cases h : lastRead? f rest k with
    | some v => simp [lastRead?, h]
    | none =>
      by_cases hs : s.spec_id = k <;>
        simp [lastRead?, h, hs, readStep, odGet?_set]

lemma lastRead?_append {Df : Type} (f : InputSpec → Df) (l₁ l₂ : List InputSpec)
    (k : String) :
    lastRead? f (l₁ ++ l₂) k = orO (lastRead? f l₂ k) (lastRead? f l₁ k) := by
  induction l₁ with
  | nil =>
    cases h : lastRead? f l₂ k <;> simp [lastRead?, h]
  | cons s rest ih =>
    rw [List.cons_append]
    show orO (lastRead? f (rest ++ l₂) k) _ = _
    rw [ih]
    cases h : lastRead? f l₂ k <;> simp [lastRead?]

lemma lastRead?_none_of_forall {Df : Type} (f : InputSpec → Df)
    (l : List InputSpec) (k : String) (h : ∀ s ∈ l, s.spec_id ≠ k) :
    lastRead? f l k = none := by
  induction l with
  | nil => rfl
  | cons s rest ih =>
    have hs : s.spec_id ≠ k := h s (by simp)
    have hrest := ih fun t ht => h t (by simp [ht])
    simp [lastRead?, hs, hrest]

lemma length_readFold_le {Df : Type} (f : InputSpec → Df)
    (specs : List InputSpec) (acc : ODict Df) :
    (specs.foldl (readStep f) acc).length ≤ acc.length + specs.length := by
  induction specs generalizing acc with
  | nil => simp
  | cons s rest ih =>
    rw [List.foldl_cons]
    have h1 := ih (readStep f acc s)
    have h2 := length_odSet_le acc s.spec_id (f s)
    simp only [readStep] at h1 ⊢
    simp only [List.length_cons]
    omega

lemma mem_odKeys_readFold_of_mem {Df : Type} (f : InputSpec → Df)
    (specs : List InputSpec) (acc : ODict Df) (k : String)
    (h : k ∈ odKeys acc) : k ∈ odKeys (specs.foldl (readStep f) acc) := by
  induction specs generalizing acc with
  | nil => simpa using h
  | cons s rest ih =>
    rw [List.foldl_cons]
    exact ih _ (mem_odKeys_set_of_mem _ _ _ _ h)

/-! Characterisation of the write stage when every dispatch succeeds. -/

/-- One output spec is processed without failure: its `input_id` resolves in
the registry and Writer Dispatch returns a result. -/
def specOk {ε Df : Type} (writer : Writer ε Df) (data : ODict Df)
    (spec : OutputSpec) : Prop :=
  ∃ df r, odGet? data spec.input_id = some df ∧ writer spec df data = .ok r

/-- The effect of one successfully processed output spec on the written-output
registry: merge a truthy result mapping, else record the identity
pass-through entry.  A failing spec (for the totality of this function only)
leaves the registry unchanged. -/
def writeStep {ε Df : Type} (writer : Writer ε Df) (data : ODict Df)
    (acc : ODict Df) (spec : OutputSpec) : ODict Df :=
  match odGet? data spec.input_id with
  | none => acc
  | some df =>
    match writer spec df data with
    | .error _ => acc
    | .ok (some m) =>
      if m.isEmpty then odSet acc spec.spec_id df else odUpdate acc m
    | .ok none => odSet acc spec.spec_id df

/-- The value the processing of one output spec writes at key `k`, if any. -/
def specKeyVal {ε Df : Type} (writer : Writer ε Df) (data : ODict Df)
    (spec : OutputSpec) (k : String) : Option Df :=
  match odGet? data spec.input_id with
  | none => none
  | some df =>
    match writer spec df data with
    | .error _ => none
    | .ok (some m) =>
      if m.isEmpty then (if spec.spec_id = k then some df else none)
      else lastVal? m k
    | .ok none => if spec.spec_id = k then some df else none

lemma writeLoop_ok {ε Df : Type} (writer : Writer ε Df) (data : ODict Df)
    (specs : List OutputSpec) (acc : ODict Df)
    (h : ∀ t ∈ specs, specOk writer data t) :
    writeLoop writer data specs acc = .ok (specs.foldl (writeStep writer data) acc) := by
  induction specs generalizing acc with
  | nil => rfl
  | cons spec rest ih =>
    obtain ⟨df, r, h1, h2⟩ := h spec (by simp)
    have hrest : ∀ t ∈ rest, specOk writer data t := fun t ht => h t (by simp [ht])
    cases r with
    | none => simp [writeLoop, writeStep, h1, h2, List.foldl_cons, ih _ hrest]
    | some m =>
      by_cases hm : m.isEmpty <;>
        simp [writeLoop, writeStep, h1, h2, hm, List.foldl_cons, ih _ hrest]

lemma odGet?_writeStep {ε Df : Type} (writer : Writer ε Df) (data : ODict Df)
    (acc : ODict Df) (spec : OutputSpec) (k : String) :
    odGet? (writeStep writer data acc spec) k =
      orO (specKeyVal writer data spec k) (odGet? acc k) := by
  unfold writeStep specKeyVal
  cases h1 : odGet? data spec.input_id with
  | none => simp [h1]
  | some df =>
    cases h2 : writer spec df data with
    | error e => simp [h1, h2]
    | ok r =>
      cases r with
      | none =>
        by_cases hs : spec.spec_id = k <;> simp [h1, h2, odGet?_set, hs]
      | some m =>
        by_cases hm : m.isEmpty
        · by_cases hs : spec.spec_id = k <;> simp [h1, h2, hm, odGet?_set, hs]
        · simp [h1, h2, hm, odGet?_update]

/-- The value the write stage leaves at key `k`: the one written by the last
output spec (in declaration order) that writes at `k`. -/
def lastWriter? {ε Df : Type} (writer : Writer ε Df) (data : ODict Df) :
    List OutputSpec → String → Option Df
  | [], _ => none
  | spec :: rest, k =>
    orO (lastWriter? writer data rest k) (specKeyVal writer data spec k)

lemma odGet?_writeFold {ε Df : Type} (writer : Writer ε Df) (data : ODict Df)
    (specs : List OutputSpec) (acc : ODict Df) (k : String) :
    odGet? (specs.foldl (writeStep writer data) acc) k =
      orO (lastWriter? writer data specs k) (odGet? acc k) := by
  induction specs generalizing acc with
  | nil => simp [lastWriter?]
  | cons spec rest ih =>
    rw [List.foldl_cons, ih]
    cases h : lastWriter? writer data rest k with
    | some v => simp [lastWriter?, h]
    | none => simp [lastWriter?, h, odGet?_writeStep]

lemma lastWriter?_append {ε Df : Type} (writer : Writer ε Df) (data : ODict Df)
    (l₁ l₂ : List OutputSpec) (k : String) :
    lastWriter? writer data (l₁ ++ l₂) k =
      orO (lastWriter? writer data l₂ k) (lastWriter? writer data l₁ k) := by
  induction l₁ with
  | nil =>
    cases h : lastWriter? writer data l₂ k <;> simp [lastWriter?, h]
  | cons spec rest ih =>
    rw [List.cons_append]
    show orO (lastWriter? writer data (rest ++ l₂) k) _ = _
    rw [ih]
    cases h : lastWriter? writer data l₂ k <;> simp [lastWriter?]

lemma lastWriter?_none_of_forall {ε Df : Type} (writer : Writer ε Df)
    (data : ODict Df) (l : List OutputSpec) (k : String)
    (h : ∀ t ∈ l, specKeyVal writer data t k = none) :
    lastWriter? writer data l k = none := by
  induction l with
  | nil => rfl
  | cons spec rest ih =>
    have hs := h spec (by simp)
    have hrest := ih fun t ht => h t (by simp [ht])
    simp [lastWriter?, hs, hrest]

/-! Helper lemmas for the fail-fast behaviour of both stages. -/

lemma isEmpty_false_of_ne {α : Type} (m : List α) (h : m ≠ []) :
    m.isEmpty = false := by
  cases m with
  | nil => exact absurd rfl h
  | cons a l => rfl

lemma readLoop_error {ε Df : Type} (reader : Reader ε Df) (l₁ l₂ : List InputSpec)
    (s : InputSpec) (e : ε) (hfail : reader s = .error e) :
    ∀ acc, (∀ t ∈ l₁, ∃ df, reader t = .ok df) →
      readLoop reader (l₁ ++ s :: l₂) acc = .error (.backend e) := by
  induction l₁ with
  | nil =>
    intro acc _
    simp [readLoop, hfail]
  | cons t rest ih =>
    intro acc hpre
    obtain ⟨df, hdf⟩ := hpre t (by simp)
    rw [List.cons_append]
    simp only [readLoop, hdf]
    exact ih _ fun u hu => hpre u (by simp [hu])

lemma readDispatched_upto_failure {ε Df : Type} (reader : Reader ε Df)
    (l₁ l₂ : List InputSpec) (s : InputSpec) (e : ε)
    (hfail : reader s = .error e) :
    (∀ t ∈ l₁, ∃ df, reader t = .ok df) →
      readDispatched reader (l₁ ++ s :: l₂) = l₁ ++ [s] := by
  induction l₁ with
  | nil =>
    intro _
    simp [readDispatched, hfail]
  | cons t rest ih =>
    intro hpre
    obtain ⟨df, hdf⟩ := hpre t (by simp)
    rw [List.cons_append]
    simp only [readDispatched, hdf]
    rw [ih fun u hu => hpre u (by simp [hu])]
    rfl

lemma writeLoop_keyError {ε Df : Type} (writer : Writer ε Df) (data : ODict Df)
    (l₂ : List OutputSpec) (s : OutputSpec)
    (hmiss : odGet? data s.input_id = none) :
    ∀ (l₁ : List OutputSpec) (acc : ODict Df), (∀ t ∈ l₁, specOk writer data t) →
      writeLoop writer data (l₁ ++ s :: l₂) acc = .error (.keyError s.input_id) := by
  intro l₁
  induction l₁ with
  | nil =>
    intro acc _
    simp [writeLoop, hmiss]
  | cons t rest ih =>
    intro acc hpre
    obtain ⟨df, r, h1, h2⟩ := hpre t (by simp)
    rw [List.cons_append]
    cases r with
    | none =>
      simp only [writeLoop, h1, h2]
      exact ih _ fun u hu => hpre u (by simp [hu])
    | some m =>
      by_cases hm : m.isEmpty <;>
      · simp only [writeLoop, h1, h2, hm]
        simp only [if_true, if_false, Bool.false_eq_true, ite_false, ite_true]
        exact ih _ fun u hu => hpre u (by simp [hu])

lemma writeDispatched_upto_missing {ε Df : Type} (writer : Writer ε Df)
    (data : ODict Df) (l₂ : List OutputSpec) (s : OutputSpec)
    (hmiss : odGet? data s.input_id = none) :
    ∀ l₁ : List OutputSpec, (∀ t ∈ l₁, specOk writer data t) →
      writeDispatched writer data (l₁ ++ s :: l₂) = l₁ := by
  intro l₁
  induction l₁ with
  | nil =>
    intro _
    simp [writeDispatched, hmiss]
  | cons t rest ih =>
    intro hpre
    obtain ⟨df, r, h1, h2⟩ := hpre t (by simp)
    rw [List.cons_append]
    simp only [writeDispatched, h1, h2]
    rw [ih fun u hu => hpre u (by simp [hu])]

/-! Claim theorems. -/

/-- C1: if an output spec's `input_id` is not a key of the registry passed to
`write()`, and every earlier output spec is processed successfully, then
`write()` fails with the referential lookup error (`KeyError` on that
`input_id`), Writer Dispatch is not invoked for that spec, and exactly the
earlier output specs were dispatched before the failure. -/
theorem C1_missing_input_id_fails {ε Df : Type} (writer : Writer ε Df)
    (data : ODict Df) (l₁ l₂ : List OutputSpec) (s : OutputSpec)
    (hpre : ∀ t ∈ l₁, specOk writer data t)
    (hmiss : odGet? data s.input_id = none) :
    write writer (l₁ ++ s :: l₂) data = .error (.keyError s.input_id) ∧
    writeDispatched writer data (l₁ ++ s :: l₂) = l₁ :=
  ⟨writeLoop_keyError writer data l₂ s hmiss l₁ [] hpre,
   writeDispatched_upto_missing writer data l₂ s hmiss l₁ hpre⟩

lemma readFold_eq_append {Df : Type} (f : InputSpec → Df)
    (specs : List InputSpec) :
    ∀ acc : ODict Df, (specs.map InputSpec.spec_id).Nodup →
      (∀ s ∈ specs, s.spec_id ∉ odKeys acc) →
      specs.foldl (readStep f) acc = acc ++ specs.map fun s => (s.spec_id, f s) := by
  induction specs with
  | nil => intro acc _ _; simp
  | cons s rest ih =>
    intro acc hnd hdisj
    rw [List.map_cons, List.nodup_cons] at hnd
    obtain ⟨hnotin, hnd'⟩ := hnd
    have hs : s.spec_id ∉ odKeys acc := hdisj s (by simp)
    have hset : readStep f acc s = acc ++ [(s.spec_id, f s)] := by
      simp [readStep, odSet_of_not_mem _ _ _ hs]
    have hdisj' : ∀ t ∈ rest, t.spec_id ∉ odKeys (acc ++ [(s.spec_id, f s)]) := by
      intro t ht hmem
      rw [odKeys_append] at hmem
      rcases List.mem_append.1 hmem with hm | hm
      · exact hdisj t (by simp [ht]) hm
      · have heq : t.spec_id = s.spec_id := by simpa [odKeys] using hm
        exact hnotin (List.mem_map.2 ⟨t, ht, heq⟩)
    rw [List.foldl_cons, hset, ih _ hnd' hdisj', List.map_cons, List.append_assoc,
      List.singleton_append]

/-- C2: for pairwise-distinct `spec_id`s and a Reader Dispatch succeeding on
every input spec, `read()` returns the registry with exactly one entry per
input spec, keyed by its `spec_id`, valued with the dispatched handle, in
declaration order. -/
theorem C2_read_registry_complete {ε Df : Type} (reader : Reader ε Df)
    (f : InputSpec → Df) (specs : List InputSpec)
    (hok : ∀ s ∈ specs, reader s = .ok (f s))
    (hnd : (specs.map InputSpec.spec_id).Nodup) :
    read reader specs = .ok (specs.map fun s => (s.spec_id, f s)) := by
  rw [read, readLoop_ok reader f specs [] hok,
    readFold_eq_append f specs [] hnd (by simp [odKeys])]
  rfl

/-- C3: when two input specs share a `spec_id` (and no later input spec reuses
it), the registry returned by `read()` maps that `spec_id` to the handle of
the later-declared spec, and the registry is strictly shorter than the input
spec list. -/
theorem C3_read_duplicate_last_write_wins {ε Df : Type} (reader : Reader ε Df)
    (f : InputSpec → Df) (l₁ l₂ l₃ : List InputSpec) (s₁ s₂ : InputSpec)
    (hok : ∀ s ∈ l₁ ++ s₁ :: l₂ ++ s₂ :: l₃, reader s = .ok (f s))
    (hdup : s₁.spec_id = s₂.spec_id)
    (hlast : ∀ t ∈ l₃, t.spec_id ≠ s₂.spec_id) :
    ∃ d, read reader (l₁ ++ s₁ :: l₂ ++ s₂ :: l₃) = .ok d ∧
      odGet? d s₂.spec_id = some (f s₂) ∧
      d.length < (l₁ ++ s₁ :: l₂ ++ s₂ :: l₃).length := by
  refine ⟨_, readLoop_ok reader f _ [] hok, ?_, ?_⟩
  · rw [odGet?_readFold, lastRead?_append]
    have h3 : lastRead? f l₃ s₂.spec_id = none :=
      lastRead?_none_of_forall f l₃ s₂.spec_id hlast
    simp [lastRead?, lastRead?_append, h3]
  · have e1 : (l₁ ++ s₁ :: l₂ ++ s₂ :: l₃).foldl (readStep f) ([] : ODict Df)
        = l₃.foldl (readStep f)
            (readStep f
              (l₂.foldl (readStep f)
                (readStep f (l₁.foldl (readStep f) []) s₁)) s₂) := by
      rw [List.foldl_append, List.foldl_cons, List.foldl_append, List.foldl_cons]
    rw [e1]
    have hA : (l₁.foldl (readStep f) ([] : ODict Df)).length ≤ l₁.length := by
      have := length_readFold_le f l₁ ([] : ODict Df)
      simpa using this
    have hB : (readStep f (l₁.foldl (readStep f) ([] : ODict Df)) s₁).length
        ≤ l₁.length + 1 := by
      have := length_odSet_le (l₁.foldl (readStep f) ([] : ODict Df))
        s₁.spec_id (f s₁)
      simp only [readStep]
      omega
    have hmemB : s₂.spec_id ∈
        odKeys (readStep f (l₁.foldl (readStep f) ([] : ODict Df)) s₁) := by
      rw [readStep, ← hdup]
      exact mem_odKeys_set_self _ _ _
    have hC : ((l₂.foldl (readStep f)
        (readStep f (l₁.foldl (readStep f) ([] : ODict Df)) s₁))).length
        ≤ l₁.length + 1 + l₂.length := by
      have := length_readFold_le f l₂
        (readStep f (l₁.foldl (readStep f) ([] : ODict Df)) s₁)
      omega
    have hmemC : s₂.spec_id ∈ odKeys (l₂.foldl (readStep f)
        (readStep f (l₁.foldl (readStep f) ([] : ODict Df)) s₁)) :=
      mem_odKeys_readFold_of_mem f l₂ _ _ hmemB
    have hD : (readStep f (l₂.foldl (readStep f)
        (readStep f (l₁.foldl (readStep f) ([] : ODict Df)) s₁)) s₂).length
        ≤ l₁.length + 1 + l₂.length := by
      rw [readStep, length_odSet_of_mem _ _ _ hmemC]
      exact hC
    have hFinal := length_readFold_le f l₃
      (readStep f (l₂.foldl (readStep f)
        (readStep f (l₁.foldl (readStep f) ([] : ODict Df)) s₁)) s₂)
    simp only [List.length_append, List.length_cons]
    omega

/-- C4: if Reader Dispatch fails on some input spec (and succeeds on all
earlier ones), `read()` propagates that same error with no registry, Reader
Dispatch is invoked exactly for the specs up to and including the failing
one, and `execute()` raises that error without entering the write stage (the
result is that error for every writer and output spec list). -/
theorem C4_read_fail_fast {ε Df : Type} (reader : Reader ε Df)
    (l₁ l₂ : List InputSpec) (s : InputSpec) (e : ε)
    (hpre : ∀ t ∈ l₁, ∃ df, reader t = .ok df)
    (hfail : reader s = .error e) :
    read reader (l₁ ++ s :: l₂) = .error (.backend e) ∧
    readDispatched reader (l₁ ++ s :: l₂) = l₁ ++ [s] ∧
    ∀ (writer : Writer ε Df) (outs : List OutputSpec),
      execute reader writer ⟨l₁ ++ s :: l₂, outs⟩ = .error (.backend e) := by
  have hread : read reader (l₁ ++ s :: l₂) = .error (.backend e) :=
    readLoop_error reader l₁ l₂ s e hfail [] hpre
  refine ⟨hread, readDispatched_upto_failure reader l₁ l₂ s e hfail hpre, ?_⟩
  intro writer outs
  simp [execute, hread]

lemma lastVal?_isSome_of_mem {Df : Type} (m : List (String × Df)) (k : String)
    (h : k ∈ odKeys m) : ∃ v, lastVal? m k = some v := by
  induction m with
  | nil => simp [odKeys] at h
  | cons p rest ih =>
    cases hr : lastVal? rest k with
    | some v => exact ⟨v, by simp [lastVal?, hr]⟩
    | none =>
      have hp : p.1 = k := by
        rcases (by simpa [odKeys_cons] using h : k = p.1 ∨ k ∈ odKeys rest) with h1 | h1
        · exact h1.symm
        · obtain ⟨v, hv⟩ := ih h1
          rw [hr] at hv
          cases hv
      exact ⟨p.2, by simp [lastVal?, hr, hp]⟩

lemma lastWriter?_isSome_of_mem {ε Df : Type} (writer : Writer ε Df)
    (data : ODict Df) (l : List OutputSpec) (t : OutputSpec) (k : String)
    (v : Df) (ht : t ∈ l) (hv : specKeyVal writer data t k = some v) :
    ∃ v', lastWriter? writer data l k = some v' := by
  induction l with
  | nil => cases ht
  | cons u rest ih =>
    cases hr : lastWriter? writer data rest k with
    | some w => exact ⟨w, by simp [lastWriter?, hr]⟩
    | none =>
      rcases List.mem_cons.1 ht with h1 | h1
      · subst h1
        exact ⟨v, by simp [lastWriter?, hr, hv]⟩
      · obtain ⟨v', hv'⟩ := ih h1
        rw [hr] at hv'
        cases hv'

/-- C5: when Writer Dispatch returns no mapping for an output spec (and every
spec is processed successfully, with no later spec writing at its
`spec_id`), the written-output registry returned by `write()` maps that
spec's `spec_id` to exactly the handle resolved from the registry via its
`input_id`. -/
theorem C5_identity_passthrough {ε Df : Type} (writer : Writer ε Df)
    (data : ODict Df) (l₁ l₂ : List OutputSpec) (s : OutputSpec) (df : Df)
    (hall : ∀ t ∈ l₁ ++ s :: l₂, specOk writer data t)
    (hlook : odGet? data s.input_id = some df)
    (hw : writer s df data = .ok none)
    (hafter : ∀ t ∈ l₂, specKeyVal writer data t s.spec_id = none) :
    ∃ w, write writer (l₁ ++ s :: l₂) data = .ok w ∧
      odGet? w s.spec_id = some df := by
  refine ⟨_, writeLoop_ok writer data _ [] hall, ?_⟩
  rw [odGet?_writeFold, lastWriter?_append]
  have h2 : lastWriter? writer data l₂ s.spec_id = none :=
    lastWriter?_none_of_forall writer data l₂ s.spec_id hafter
  have hs : specKeyVal writer data s s.spec_id = some df := by
    simp [specKeyVal, hlook, hw]
  simp [lastWriter?, h2, hs]

/-- C6: for output specs whose Writer Dispatch returns non-empty mappings
(in a run where every spec is processed successfully), every key of each
returned mapping is present in the written-output registry; and a key shared
by the mappings of an earlier and a later output spec (not written again
afterwards) ends up bound to the later spec's value for it. -/
theorem C6_merge_last_write_wins {ε Df : Type} (writer : Writer ε Df)
    (data : ODict Df) (l₁ l₂ l₃ : List OutputSpec) (si sj : OutputSpec)
    (dfi dfj : Df) (mi mj : List (String × Df)) (k : String)
    (hall : ∀ t ∈ l₁ ++ si :: l₂ ++ sj :: l₃, specOk writer data t)
    (hlooki : odGet? data si.input_id = some dfi)
    (hwi : writer si dfi data = .ok (some mi)) (hmi : mi ≠ [])
    (hlookj : odGet? data sj.input_id = some dfj)
    (hwj : writer sj dfj data = .ok (some mj)) (hmj : mj ≠ [])
    (_hki : k ∈ odKeys mi) (hkj : k ∈ odKeys mj)
    (hafter : ∀ t ∈ l₃, specKeyVal writer data t k = none) :
    ∃ w, write writer (l₁ ++ si :: l₂ ++ sj :: l₃) data = .ok w ∧
      (∀ p ∈ mi, p.1 ∈ odKeys w) ∧ (∀ p ∈ mj, p.1 ∈ odKeys w) ∧
      odGet? w k = lastVal? mj k := by
  have hski : ∀ k', specKeyVal writer data si k' = lastVal? mi k' := by
    intro k'
    simp [specKeyVal, hlooki, hwi, isEmpty_false_of_ne mi hmi]
  have hskj : ∀ k', specKeyVal writer data sj k' = lastVal? mj k' := by
    intro k'
    simp [specKeyVal, hlookj, hwj, isEmpty_false_of_ne mj hmj]
  have hmemi : si ∈ l₁ ++ si :: l₂ ++ sj :: l₃ := by simp
  have hmemj : sj ∈ l₁ ++ si :: l₂ ++ sj :: l₃ := by simp
  refine ⟨_, writeLoop_ok writer data _ [] hall, ?_, ?_, ?_⟩
  · intro p hp
    have hpk : p.1 ∈ odKeys mi := List.mem_map_of_mem Prod.fst hp
    obtain ⟨v₀, hv₀⟩ := lastVal?_isSome_of_mem mi p.1 hpk
    obtain ⟨v', hv'⟩ := lastWriter?_isSome_of_mem writer data _ si p.1 v₀ hmemi
      (by rw [hski]; exact hv₀)
    refine mem_odKeys_of_odGet? _ _ v' ?_
    rw [odGet?_writeFold, hv']
    rfl
  · intro p hp
    have hpk : p.1 ∈ odKeys mj := List.mem_map_of_mem Prod.fst hp
    obtain ⟨v₀, hv₀⟩ := lastVal?_isSome_of_mem mj p.1 hpk
    obtain ⟨v', hv'⟩ := lastWriter?_isSome_of_mem writer data _ sj p.1 v₀ hmemj
      (by rw [hskj]; exact hv₀)
    refine mem_odKeys_of_odGet? _ _ v' ?_
    rw [odGet?_writeFold, hv']
    rfl
  · obtain ⟨v, hv⟩ := lastVal?_isSome_of_mem mj k hkj
    rw [odGet?_writeFold, lastWriter?_append]
    have h3 : lastWriter? writer data l₃ k = none :=
      lastWriter?_none_of_forall writer data l₃ k hafter
    simp [lastWriter?, lastWriter?_append, h3, hskj, hv]

/-- C7: a raw output entry omitting `data_format` is constructed with the
canonical columnar table format string as its `data_format`, and one
omitting `partitions` is constructed with the empty partitions list; the
constructed spec is among those returned by the config parsing. -/
theorem C7_output_spec_defaults (ε : Type) (acon : Acon)
    (es : List RawOutputEntry) (e : RawOutputEntry)
    (h : acon.output_specs = some es) (he : e ∈ es) :
    ∃ os, getOutputSpecs ε acon = .ok os ∧ mkOutputSpec e ∈ os ∧
      (e.data_format = none → (mkOutputSpec e).data_format = deltaFilesValue) ∧
      (e.partitions = none → (mkOutputSpec e).partitions = []) := by
  refine ⟨es.map mkOutputSpec, by simp [getOutputSpecs, h],
    List.mem_map_of_mem mkOutputSpec he, ?_, ?_⟩
  · intro hdf
    simp [mkOutputSpec, hdf]
  · intro hp
    simp [mkOutputSpec, hp]

/-- C8: a configuration document missing the `input_specs` collection (or
having it but missing `output_specs`) makes DataLoader construction fail
with the corresponding `KeyError`, and the whole pipeline fails with that
same error for every Reader and Writer Dispatch — no dispatch is consulted. -/
theorem C8_missing_collections {ε Df : Type} (acon : Acon)
    (reader : Reader ε Df) (writer : Writer ε Df) :
    (acon.input_specs = none →
      mkDataLoader ε acon = .error (.keyError "input_specs") ∧
      runAcon reader writer acon = .error (.keyError "input_specs")) ∧
    (∀ ins, acon.input_specs = some ins → acon.output_specs = none →
      mkDataLoader ε acon = .error (.keyError "output_specs") ∧
      runAcon reader writer acon = .error (.keyError "output_specs")) := by
  constructor
  · intro h
    have h1 : mkDataLoader ε acon = .error (.keyError "input_specs") := by
      simp [mkDataLoader, getInputSpecs, h]
    exact ⟨h1, by simp [runAcon, h1]⟩
  · intro ins h1 h2
    have h3 : mkDataLoader ε acon = .error (.keyError "output_specs") := by
      simp [mkDataLoader, getInputSpecs, getOutputSpecs, h1, h2]
    exact ⟨h3, by simp [runAcon, h3]⟩

/-- C9: `execute()` runs the read stage, then the write stage on the read
result; a read-stage error is returned unchanged, a write-stage error is
returned unchanged, and on success the result is exactly the written-output
registry produced by the write stage. -/
theorem C9_execute_sequencing {ε Df : Type} (reader : Reader ε Df)
    (writer : Writer ε Df) (dl : DataLoader) :
    (∀ e, read reader dl.input_specs = .error e →
      execute reader writer dl = .error e) ∧
    (∀ d, read reader dl.input_specs = .ok d →
      (∀ e, write writer dl.output_specs d = .error e →
        execute reader writer dl = .error e) ∧
      (∀ w, write writer dl.output_specs d = .ok w →
        execute reader writer dl = .ok w)) := by
  refine ⟨fun e he => ?_, fun d hd => ⟨fun e he => ?_, fun w hw => ?_⟩⟩
  · simp [execute, he]
  · simp [execute, hd, he]
  · simp [execute, hd, hw]

/-- A writer with every `Some(empty mapping)` result replaced by `None`. -/
def normalizeWriter {ε Df : Type} (writer : Writer ε Df) : Writer ε Df :=
  fun spec df data =>
    match writer spec df data with
    | .ok (some []) => .ok none
    | r => r

lemma writeLoop_normalize {ε Df : Type} (writer : Writer ε Df) (data : ODict Df) :
    ∀ (specs : List OutputSpec) (acc : ODict Df),
      writeLoop (normalizeWriter writer) data specs acc =
        writeLoop writer data specs acc := by
  intro specs
  induction specs with
  | nil => intro acc; rfl
  | cons spec rest ih =>
    intro acc
    cases h1 : odGet? data spec.input_id with
    | none => simp [writeLoop, h1]
    | some df =>
      cases h2 : writer spec df data with
      | error e => simp [writeLoop, h1, h2, normalizeWriter]
      | ok r =>
        cases r with
        | none => simp [writeLoop, h1, h2, normalizeWriter, ih]
        | some m =>
          cases m with
          | nil => simp [writeLoop, h1, h2, normalizeWriter, ih]
          | cons p ms => simp [writeLoop, h1, h2, normalizeWriter, ih]

lemma writeDispatched_normalize {ε Df : Type} (writer : Writer ε Df)
    (data : ODict Df) :
    ∀ specs : List OutputSpec,
      writeDispatched (normalizeWriter writer) data specs =
        writeDispatched writer data specs := by
  intro specs
  induction specs with
  | nil => rfl
  | cons spec rest ih =>
    cases h1 : odGet? data spec.input_id with
    | none => simp [writeDispatched, h1]
    | some df =>
      cases h2 : writer spec df data with
      | error e => simp [writeDispatched, h1, h2, normalizeWriter]
      | ok r =>
        cases r with
        | none => simp [writeDispatched, h1, h2, normalizeWriter, ih]
        | some m =>
          cases m with
          | nil => simp [writeDispatched, h1, h2, normalizeWriter, ih]
          | cons p ms => simp [writeDispatched, h1, h2, normalizeWriter, ih]

/-- C10: an output spec whose Writer Dispatch returns an empty mapping is
handled exactly as if the dispatch had returned nothing: replacing every
empty-mapping result by no result changes neither the outcome of `write()`
nor which specs are dispatched, and the value such a spec records at a key
is the identity pass-through entry at its own `spec_id`. -/
theorem C10_empty_mapping_as_none {ε Df : Type} (writer : Writer ε Df)
    (data : ODict Df) :
    (∀ specs : List OutputSpec,
      write (normalizeWriter writer) specs data = write writer specs data ∧
      writeDispatched (normalizeWriter writer) data specs =
        writeDispatched writer data specs) ∧
    (∀ (spec : OutputSpec) (df : Df) (k : String),
      odGet? data spec.input_id = some df →
      writer spec df data = .ok (some []) →
      specKeyVal writer data spec k =
        (if spec.spec_id = k then some df else none)) := by
  constructor
  · intro specs
    exact ⟨writeLoop_normalize writer data specs [],
      writeDispatched_normalize writer data specs⟩
  · intro spec df k h1 h2
    simp [specKeyVal, h1, h2]

/-! Concrete witnesses: each claim theorem with hypotheses applied at an
explicit configuration. -/

/-- Witness for C1: with registry `{"a": 0}`, output specs `o1` (input `"a"`)
then `o2` (input `"missing"`), the write stage dispatches `o1`, then fails
referentially on `o2` without dispatching it. -/
theorem C1_witness :
    write (fun _ _ _ => Except.ok none : Writer Unit Nat)
      [⟨"o1", "a", none, "delta", none, none, []⟩,
       ⟨"o2", "missing", none, "delta", none, none, []⟩] [("a", 0)] =
      .error (.keyError "missing") ∧
    writeDispatched (fun _ _ _ => Except.ok none : Writer Unit Nat) [("a", 0)]
      [⟨"o1", "a", none, "delta", none, none, []⟩,
       ⟨"o2", "missing", none, "delta", none, none, []⟩] =
      [⟨"o1", "a", none, "delta", none, none, []⟩] :=
  C1_missing_input_id_fails _ _ [⟨"o1", "a", none, "delta", none, none, []⟩] []
    ⟨"o2", "missing", none, "delta", none, none, []⟩
    (fun t ht => by
      have h := List.mem_singleton.mp ht
      subst h
      exact ⟨0, none, rfl, rfl⟩)
    rfl

/-- Witness for C2: two distinct input specs, a reader returning `7`, a
two-entry registry in declaration order. -/
theorem C2_witness :
    read (fun _ => Except.ok 7 : Reader Unit Nat)
      [⟨"a", none, []⟩, ⟨"b", none, []⟩] = .ok [("a", 7), ("b", 7)] :=
  C2_read_registry_complete (fun _ => Except.ok 7) (fun _ => 7)
    [⟨"a", none, []⟩, ⟨"b", none, []⟩] (fun _ _ => rfl) (by decide)

/-- Witness for C3: two input specs sharing `spec_id "a"` whose reads return
`1` and `2`; the registry keeps the later handle and has one entry, fewer
than the two declared specs. -/
theorem C3_witness :
    ∃ d, read (fun s => Except.ok (if s.read_type = some "1" then 1 else 2) :
        Reader Unit Nat)
      [⟨"a", some "1", []⟩, ⟨"a", some "2", []⟩] = .ok d ∧
      odGet? d "a" = some 2 ∧ d.length < 2 :=
  C3_read_duplicate_last_write_wins
    (fun s => Except.ok (if s.read_type = some "1" then 1 else 2))
    (fun s => if s.read_type = some "1" then 1 else 2)
    [] [] [] ⟨"a", some "1", []⟩ ⟨"a", some "2", []⟩
    (fun _ _ => rfl) rfl (fun t ht => absurd ht (List.not_mem_nil t))

/-- Witness for C4: the reader fails on `"a"` (declared second); `read()`
propagates the backend error, both specs up to the failing one were
dispatched, and `execute()` surfaces the same error with the write stage
never entered. -/
theorem C4_witness :
    read (fun s => if s.spec_id = "a" then Except.error () else Except.ok 0 :
        Reader Unit Nat)
      [⟨"b", none, []⟩, ⟨"a", none, []⟩] = .error (.backend ()) ∧
    readDispatched
      (fun s => if s.spec_id = "a" then Except.error () else Except.ok 0 :
        Reader Unit Nat)
      [⟨"b", none, []⟩, ⟨"a", none, []⟩] = [⟨"b", none, []⟩, ⟨"a", none, []⟩] ∧
    execute
      (fun s => if s.spec_id = "a" then Except.error () else Except.ok 0)
      (fun _ _ _ => Except.ok none)
      ⟨[⟨"b", none, []⟩, ⟨"a", none, []⟩], []⟩ = .error (.backend ()) := by
  obtain ⟨h1, h2, h3⟩ := C4_read_fail_fast
    (fun s => if s.spec_id = "a" then Except.error () else Except.ok (0 : Nat))
    [⟨"b", none, []⟩] [] ⟨"a", none, []⟩ ()
    (fun t ht => by
      have h := List.mem_singleton.mp ht
      subst h
      exact ⟨0, rfl⟩)
    rfl
  exact ⟨h1, h2, h3 (fun _ _ _ => Except.ok none) []⟩

/-- Witness for C5: Writer Dispatch returns nothing for `out1`; the returned
registry maps `"out1"` to exactly the handle read for `"a"`. -/
theorem C5_witness :
    ∃ w, write (fun _ _ _ => Except.ok none : Writer Unit Nat)
      [⟨"out1", "a", none, "delta", none, none, []⟩] [("a", 5)] = .ok w ∧
      odGet? w "out1" = some 5 :=
  C5_identity_passthrough _ _ [] [] ⟨"out1", "a", none, "delta", none, none, []⟩ 5
    (fun t ht => by
      have h := List.mem_singleton.mp ht
      subst h
      exact ⟨5, none, rfl, rfl⟩)
    rfl rfl (fun t ht => absurd ht (List.not_mem_nil t))

/-- Witness for C6 (Scenario D): `o1` and `o2` both write the key
`"shared"`, with values `1` then `2`; the final registry binds `"shared"`
to the later value `2`. -/
theorem C6_witness :
    ∃ w, write
      (fun spec _ _ => Except.ok (some
        (if spec.spec_id = "o1" then [("shared", 1)] else [("shared", 2)])) :
        Writer Unit Nat)
      [⟨"o1", "a", none, "delta", none, none, []⟩,
       ⟨"o2", "a", none, "delta", none, none, []⟩] [("a", 0)] = .ok w ∧
      (∀ p ∈ [("shared", (1 : Nat))], p.1 ∈ odKeys w) ∧
      (∀ p ∈ [("shared", (2 : Nat))], p.1 ∈ odKeys w) ∧
      odGet? w "shared" = lastVal? [("shared", 2)] "shared" :=
  C6_merge_last_write_wins
    (fun spec _ _ => Except.ok (some
      (if spec.spec_id = "o1" then [("shared", 1)] else [("shared", 2)])))
    [("a", 0)] [] [] []
    ⟨"o1", "a", none, "delta", none, none, []⟩
    ⟨"o2", "a", none, "delta", none, none, []⟩
    0 0 [("shared", 1)] [("shared", 2)] "shared"
    (fun t ht => by
      rcases List.mem_cons.mp ht with h | h
      · subst h
        exact ⟨0, some [("shared", 1)], rfl, rfl⟩
      · have h2 := List.mem_singleton.mp h
        subst h2
        exact ⟨0, some [("shared", 2)], rfl, rfl⟩)
    rfl rfl (by decide) rfl rfl (by decide) (by decide) (by decide)
    (fun t ht => absurd ht (List.not_mem_nil t))

/-- Witness for C7: a raw output entry omitting `data_format` and
`partitions` is constructed with the canonical format string and the empty
partitions list. -/
theorem C7_witness :
    ∃ os, getOutputSpecs Unit
      (Acon.mk (some []) (some [RawOutputEntry.mk "o1" "a" none none none none none])) =
        .ok os ∧
      mkOutputSpec (RawOutputEntry.mk "o1" "a" none none none none none) ∈ os ∧
      ((RawOutputEntry.mk "o1" "a" none none none none none).data_format = none →
        (mkOutputSpec (RawOutputEntry.mk "o1" "a" none none none none none)).data_format =
          deltaFilesValue) ∧
      ((RawOutputEntry.mk "o1" "a" none none none none none).partitions = none →
        (mkOutputSpec (RawOutputEntry.mk "o1" "a" none none none none none)).partitions = []) :=
  C7_output_spec_defaults Unit
    (Acon.mk (some []) (some [RawOutputEntry.mk "o1" "a" none none none none none]))
    [RawOutputEntry.mk "o1" "a" none none none none none]
    (RawOutputEntry.mk "o1" "a" none none none none none)
    rfl (List.mem_singleton.mpr rfl)

end LakehouseEngine
